import Mathlib

/-!
Verification of NoisePy Step 1 (`S1_do_fft_all_formats.py`).

Shallow embedding of the station-day FFT preprocessing script.  The script
reads day-long continuous traces (ASDF or SAC/MiniSeed), checks whole-day
robust statistics, slices the trace into overlapping windows, packs the
windows into a zero-padded matrix, optionally applies time-domain
normalization and spectral whitening, and stores the first half of each
row's forward transform into a per-station archive.

External collaborators (obspy, scipy helpers, `noise_module` functions that
are not part of this source file) are modelled either from their documented
behaviour or taken as uninterpreted function parameters; every piece of
control flow and arithmetic of the script itself is translated directly.
Sample values are modelled as exact rationals (the script's float32
arithmetic performs only exact operations — copies, sign, zero fills — in
the fragments the theorems below speak about); a whole-day statistic that
is NaN in the script is modelled as `none : Option ℚ`, so that the Python
comparison `nan == 0` evaluating to `False` corresponds to
`(none : Option ℚ) = some 0` being false.
-/

/-- Station-location record (one row of the `locs` table: latitude,
longitude, elevation), as consumed by `noise_module.fft_parameters`. -/
structure Loc where
  latitude : ℚ
  longitude : ℚ
  elevation : ℚ
deriving DecidableEq, Repr

/-- Degenerate-day guard of the ASDF branch (line 218):
`all_madS==0 or all_stdS==0 or np.isnan(all_madS) or np.isnan(all_stdS)`.
`none` models a NaN statistic; `nan == 0` is false in Python, matching
`none = some 0` being false here, and `np.isnan` matches `= none`. -/
def asdfDegenerate (madS stdS : Option ℚ) : Bool :=
  madS = some 0 ∨ stdS = some 0 ∨ madS = none ∨ stdS = none

/-- Degenerate-day guard of the SAC/MiniSeed branch (line 378):
`all_madS==0 or all_stdS==0` — note: no `np.isnan` test in this branch. -/
def sacDegenerate (madS stdS : Option ℚ) : Bool :=
  madS = some 0 ∨ stdS = some 0

/-- `np.sign` on one value: +1 for positive, −1 for negative, 0 for zero. -/
def qsign (x : ℚ) : ℚ :=
  if 0 < x then 1 else if x < 0 then -1 else 0

/-- `np.sign(dataS)` applied elementwise to the window matrix
(lines 277 and 431: `white = np.sign(dataS)`). -/
def oneBitMatrix (m : List (List ℚ)) : List (List ℚ) :=
  m.map (List.map qsign)

/-- `NtS = np.max(nptsS)` (lines 254 and 412): the largest true sample
count over the windows of the set (0 on an empty set, which the script
never reaches because of the emptiness check just above). -/
def maxNpts (ws : List (List ℚ)) : ℕ :=
  (ws.map List.length).foldr max 0

/-- One row of the packed matrix: the window's samples followed by zeros
up to the common width (lines 256/260: `dataS = np.zeros(shape=(N,NtS))`
then `dataS[ii,0:nptsS[ii]] = trace.data`). -/
def packRow (width : ℕ) (w : List ℚ) : List ℚ :=
  w ++ List.replicate (width - w.length) 0

/-- The packed matrix `dataS`: every window copied into the left-aligned
prefix of a zero row of width `maxNpts ws`. -/
def packMatrix (ws : List (List ℚ)) : List (List ℚ) :=
  ws.map (packRow (maxNpts ws))

/-- Divide out every factor `p` from `n`, with explicit fuel (structural
recursion so that the kernel can evaluate it). -/
def stripFacAux (p : ℕ) : ℕ → ℕ → ℕ
  | 0, n => n
  | fuel + 1, n => if n ≠ 0 ∧ n % p = 0 then stripFacAux p fuel (n / p) else n

/-- Divide out every factor `p` from `n` (`n` itself is always enough
fuel, since each division by `p ≥ 2` at least halves the value). -/
def stripFac (p n : ℕ) : ℕ := stripFacAux p n n

/-- 5-smoothness test: `n` is a product of powers of 2, 3 and 5 only.
This is the "fast transform friendly" size notion of
`scipy.fftpack.helper.next_fast_len` (an external helper: its documented
contract is to return the smallest 5-smooth integer ≥ the input). -/
def isFiveSmooth (n : ℕ) : Bool :=
  stripFac 5 (stripFac 3 (stripFac 2 n)) = 1

/-- Linear search for the first 5-smooth integer ≥ `n`, with fuel. -/
def nflAux : ℕ → ℕ → ℕ
  | 0, n => n
  | fuel + 1, n => if isFiveSmooth n then n else nflAux fuel (n + 1)

/-- Modelled from the spec: `scipy.fftpack.helper.next_fast_len` (external
library helper used at lines 270/424), the smallest fast-transform-friendly
(5-smooth) integer ≥ `n`.  Fuel `n + 1` always suffices for `n ≥ 1`
because some power of two lies in `[n, 2n]`. -/
def next_fast_len (n : ℕ) : ℕ := nflAux (n + 1) n

/-- Modelled from the spec: start offsets (in seconds from the trace
start) of the windows emitted by `obspy`'s `Trace.slide(window_length,
step)` (external library call at lines 230/390).  Candidate starts are
`0, S, 2S, …` strictly below the trace length `L` (`np.arange`), and a
window is emitted only when the full `W` seconds fit inside the trace,
i.e. `t + W ≤ L` — the documented no-partial-window boundary policy. -/
def slideStarts (L W S : ℚ) : List ℚ :=
  ((List.range ⌈L / S⌉₊).filter (fun i : ℕ => decide ((i : ℚ) * S + W ≤ L))).map
    (fun i : ℕ => (i : ℚ) * S)

/-- Python `range(start, stop, step)` for a positive `step`:
`start, start+step, …` strictly below `stop`. -/
def pyRange (start stop step : ℕ) : List ℕ :=
  (List.range ((stop - start + step - 1) / step)).map (fun k => start + k * step)

/-- The station indices a worker of the given rank actually processes
(lines 161–165): `extra = splits % size`, then
`for ista in range(rank, splits+size-extra, size): if ista < splits: …`. -/
def processedIndices (splits size rank : ℕ) : List ℕ :=
  (pyRange rank (splits + size - splits % size) size).filter (fun i => i < splits)

/-- Coefficient `k` of the length-`Nfft` discrete forward transform of a
real row, zero-padded (or truncated) to `Nfft` samples: the mathematical
contract of `scipy.fftpack.fft(white, Nfft, axis=axis)` at lines 303/457. -/
noncomputable def dftCoeff (Nfft : ℕ) (row : List ℚ) (k : ℕ) : ℂ :=
  ∑ j ∈ Finset.range Nfft,
    ((row.getD j 0 : ℚ) : ℂ) *
      Complex.exp (-2 * Real.pi * Complex.I * (j : ℂ) * (k : ℂ) / (Nfft : ℂ))

/-- One row of `scipy.fftpack.fft(white, Nfft)`: the `Nfft` transform
coefficients of that row. -/
noncomputable def fftRow (Nfft : ℕ) (row : List ℚ) : List ℂ :=
  (List.range Nfft).map (dftCoeff Nfft row)

/-- `scipy.fftpack.fft(white, Nfft, axis=1)`: row-wise transform of the
whole matrix (the `axis` computed at lines 265–268/423 is 1 for the 2-D
`dataS`, i.e. the transform runs along each row). -/
noncomputable def fftMatrix (Nfft : ℕ) (m : List (List ℚ)) : List (List ℂ) :=
  m.map (fftRow Nfft)

/-- The stored archive payload `crap` (lines 306/325 and 460/477):
`crap = np.zeros(shape=(N, Nfft//2))` followed by
`crap[:, :Nfft//2] = source_white[:, :Nfft//2]` — row `i`, column `k`
holds coefficient `k < Nfft/2` of row `i` of `source_white` (the zero
initialisation survives only where `source_white` has no entry, which
cannot happen for the script's `N × Nfft` transform output). -/
def storeHalf (Nfft : ℕ) (sw : List (List ℂ)) : List (List ℂ) :=
  sw.map (fun row => (List.range (Nfft / 2)).map (fun k => row.getD k 0))

/-- Time-domain normalization dispatch (lines 273–289 / 427–443).
Returns `none` when the Python variable `white` is left unassigned: with
`time_norm` true, only the branches `norm_type == 'one_bit'` and
`norm_type == 'running_mean'` assign `white`; any other mode string
(in particular `''`) assigns nothing.  `movingAve` stands for the external
`noise_module.moving_ave` (not part of this source file); the
`running_mean` branch divides each row elementwise by the moving average
of its absolute values (`white[kkk,:] = dataS[kkk,:]/moving_ave(...)`). -/
def timeNormStage (time_norm : Bool) (ntype : String) (smoothN : ℕ)
    (movingAve : List ℚ → ℕ → List ℚ) (dataS : List (List ℚ)) :
    Option (List (List ℚ)) :=
  if time_norm then
    if ntype = "one_bit" then some (oneBitMatrix dataS)
    else if ntype = "running_mean" then
      some (dataS.map (fun row => List.zipWith (· / ·) row (movingAve (row.map abs) smoothN)))
    else none
  else some dataS

/-- Spectral stage dispatch (lines 292–303 / 446–457) together with the
first *use* of the possibly-unassigned variables.  The input is the
optional `white` (unassigned = `none`); the result is either the
`source_white` matrix or the name of the variable whose use raises
`NameError`:
* `to_whiten` with a recognised `whiten_type` calls
  `noise_module.whiten` / `noise_module.whiten_smooth` (external, taken
  as the parameters `whitenFn` / `whitenSmoothFn`) on `white` — an
  unassigned `white` errors right there;
* `to_whiten` with any other `whiten_type` (in particular `''`) assigns
  nothing, so the first failing use is `source_white` in the archive
  copy at line 325/477;
* without `to_whiten`, `source_white = scipy.fftpack.fft(white, Nfft)`
  uses `white` directly. -/
noncomputable def spectralDispatch (to_whiten : Bool) (wtype : String)
    (whitenFn whitenSmoothFn : List (List ℚ) → List (List ℂ)) (Nfft : ℕ)
    (whiteOpt : Option (List (List ℚ))) : Except String (List (List ℂ)) :=
  if to_whiten then
    if wtype = "one_bit" then
      match whiteOpt with
      | none => .error "white"
      | some w => .ok (whitenFn w)
    else if wtype = "running_mean" then
      match whiteOpt with
      | none => .error "white"
      | some w => .ok (whitenSmoothFn w)
    else .error "source_white"
  else
    match whiteOpt with
    | none => .error "white"
    | some w => .ok (fftMatrix Nfft w)

/-- Configuration slice of the script relevant to one unit, as set up in
lines 72–101.  `norm_type` / `whiten_type` hold the *configured* mode
strings, before the startup reset logic. -/
structure Config where
  time_norm : Bool
  to_whiten : Bool
  norm_type : String
  whiten_type : String
  smooth_N : ℕ
  cc_len : ℚ
  step : ℚ

/-- Startup reset at lines 95–96: `if not to_whiten: norm_type=''`. -/
def effNormType (c : Config) : String :=
  if ¬ c.to_whiten then "" else c.norm_type

/-- Startup reset at lines 99–100: `if not time_norm: whiten_type=''`. -/
def effWhitenType (c : Config) : String :=
  if ¬ c.time_norm then "" else c.whiten_type

/-- Outcome of processing one station-day-channel unit: clean skips,
a raised `NameError` on the given variable name, or a stored archive
entry (the half-spectrum matrix plus the station-location row passed to
`noise_module.fft_parameters`). -/
inductive Outcome where
  | skipDegenerate : Outcome
  | skipNoTraces : Outcome
  | nameError : String → Outcome
  | written : List (List ℂ) → Loc → Outcome

/-- `true` exactly on a `written` outcome. -/
def Outcome.isWritten : Outcome → Bool
  | .written _ _ => true
  | _ => false

/-- The station-location row stored with a `written` outcome. -/
def Outcome.writtenLoc : Outcome → Option Loc
  | .written _ l => some l
  | _ => none

/-- One tag of the ASDF branch (lines 216–327), for a trace of duration
`L` seconds.  External inputs: `madS`/`stdS` are the whole-day statistics
computed by `noise_module.mad` / `np.std` (`none` = NaN); `winData i` is
the sample list of the `i`-th emitted window after the external obspy
`slice`/`detrend`/`taper` calls (`nptsS[i]` is its length — `taper`
preserves the sample count); `loc` is the single-row `locs` table built
from the StationXML (lines 188–189), whose row 0 is the unit's own
station.  Control flow translated line by line:
* line 218 degenerate guard → `skipDegenerate`;
* line 239 `del source` removes the name `source`, so the empty-set
  branch at lines 245–246 (`print("No traces for %s " % source)`)
  raises `NameError` on `source` instead of skipping;
* lines 253–270 pack the windows and pick `Nfft`;
* lines 273–325 run the two stages and store the half spectrum with
  `locs.iloc[0]` (which here is the unit's own station row). -/
noncomputable def processTagAsdf (c : Config) (movingAve : List ℚ → ℕ → List ℚ)
    (whitenFn whitenSmoothFn : List (List ℚ) → List (List ℂ))
    (madS stdS : Option ℚ) (L : ℚ) (winData : ℕ → List ℚ) (loc : Loc) :
    Outcome :=
  if asdfDegenerate madS stdS then .skipDegenerate
  else
    let ws := (List.range (slideStarts L c.cc_len c.step).length).map winData
    if ws.length = 0 then .nameError "source"
    else
      let dataS := packMatrix ws
      let Nfft := next_fast_len (maxNpts ws)
      match spectralDispatch c.to_whiten (effWhitenType c) whitenFn whitenSmoothFn Nfft
          (timeNormStage c.time_norm (effNormType c) c.smooth_N movingAve dataS) with
      | .error v => .nameError v
      | .ok sw => .written (storeHalf Nfft sw) loc

/-- One channel file of the SAC/MiniSeed branch (lines 376–478) for the
station with index `ista` in the station table `locs` (read from
`locations.txt`).  Differences from the ASDF branch, each translated
from the source:
* line 378 guard has no `np.isnan` test (`sacDegenerate`);
* the empty-set branch at lines 404–405 formats `tfile`, which is still
  in scope — a clean skip;
* line 469 passes `locs.iloc[0]` — row 0 of the whole station table —
  to `noise_module.fft_parameters`, regardless of `ista`. -/
noncomputable def processFileSac (c : Config) (movingAve : List ℚ → ℕ → List ℚ)
    (whitenFn whitenSmoothFn : List (List ℚ) → List (List ℂ))
    (madS stdS : Option ℚ) (L : ℚ) (winData : ℕ → List ℚ)
    (locs : List Loc) (ista : ℕ) : Outcome :=
  if sacDegenerate madS stdS then .skipDegenerate
  else
    let ws := (List.range (slideStarts L c.cc_len c.step).length).map winData
    if ws.length = 0 then .skipNoTraces
    else
      let dataS := packMatrix ws
      let Nfft := next_fast_len (maxNpts ws)
      match spectralDispatch c.to_whiten (effWhitenType c) whitenFn whitenSmoothFn Nfft
          (timeNormStage c.time_norm (effNormType c) c.smooth_N movingAve dataS) with
      | .error v => .nameError v
      | .ok sw => .written (storeHalf Nfft sw) (locs.getD 0 ⟨0, 0, 0⟩)

/-! ## Properties of the factor-stripping smoothness test -/

theorem stripFacAux_dvd (p : ℕ) : ∀ f n, stripFacAux p f n ∣ n := by
  intro f
  induction f with
  | zero => intro n; simp [stripFacAux]
  | succ f ih =>
    intro n
    rw [stripFacAux]
    split
    · rename_i h
      exact (ih (n / p)).trans (Nat.div_dvd_of_dvd (Nat.dvd_of_mod_eq_zero h.2))
    · exact dvd_rfl

theorem stripFacAux_ne_zero (p : ℕ) (hp : 2 ≤ p) :
    ∀ f n, n ≠ 0 → stripFacAux p f n ≠ 0 := by
  intro f
  induction f with
  | zero => intro n hn; simpa [stripFacAux] using hn
  | succ f ih =>
    intro n hn
    rw [stripFacAux]
    split
    · rename_i h
      refine ih (n / p) ?_
      have hpn : p ≤ n := Nat.le_of_dvd (Nat.pos_of_ne_zero hn) (Nat.dvd_of_mod_eq_zero h.2)
      have := Nat.div_pos hpn (by omega)
      omega
    · exact hn

theorem stripFacAux_not_dvd (p : ℕ) (hp : 2 ≤ p) :
    ∀ n f, n ≤ f → n ≠ 0 → ¬ p ∣ stripFacAux p f n := by
  intro n
  induction n using Nat.strong_induction_on with
  | _ n ih =>
    intro f hnf hn0
    match f with
    | 0 => omega
    | f + 1 =>
      rw [stripFacAux]
      split
      · rename_i h
        have hpn : p ≤ n := Nat.le_of_dvd (Nat.pos_of_ne_zero hn0) (Nat.dvd_of_mod_eq_zero h.2)
        have hlt : n / p < n := Nat.div_lt_self (Nat.pos_of_ne_zero hn0) (by omega)
        have hne : n / p ≠ 0 := by
          have := Nat.div_pos hpn (by omega)
          omega
        exact ih (n / p) hlt f (by omega) hne
      · rename_i h
        intro hdvd
        obtain ⟨c, rfl⟩ := hdvd
        exact h ⟨hn0, Nat.mul_mod_right p c⟩

theorem stripFacAux_pow_mul (p : ℕ) (hp : p ≠ 0) :
    ∀ f n, ∃ j, n = p ^ j * stripFacAux p f n := by
  intro f
  induction f with
  | zero => intro n; exact ⟨0, by simp [stripFacAux]⟩
  | succ f ih =>
    intro n
    rw [stripFacAux]
    split
    · rename_i h
      obtain ⟨j, hj⟩ := ih (n / p)
      refine ⟨j + 1, ?_⟩
      have : p * (n / p) = n := Nat.mul_div_cancel' (Nat.dvd_of_mod_eq_zero h.2)
      calc n = p * (n / p) := this.symm
        _ = p * (p ^ j * stripFacAux p f (n / p)) := by rw [← hj]
        _ = p ^ (j + 1) * stripFacAux p f (n / p) := by ring
    · exact ⟨0, by simp⟩

theorem isFiveSmooth_iff (n : ℕ) :
    isFiveSmooth n = true ↔ n ≠ 0 ∧ ∀ q : ℕ, q.Prime → q ∣ n → q ≤ 5 := by
  rw [isFiveSmooth, decide_eq_true_eq]
  constructor
  · intro h
    have hn0 : n ≠ 0 := by
      rintro rfl
      simp [stripFac, stripFacAux] at h
    refine ⟨hn0, fun q hq hqn => ?_⟩
    by_contra hq5
    obtain ⟨j2, hj2⟩ := stripFacAux_pow_mul 2 (by norm_num) n n
    have hq2 : q ∣ stripFac 2 n := by
      rcases (Nat.Prime.dvd_mul hq).mp (hj2 ▸ hqn) with h2 | h2
      · have := Nat.le_of_dvd (by norm_num) (hq.dvd_of_dvd_pow h2)
        omega
      · exact h2
    obtain ⟨j3, hj3⟩ := stripFacAux_pow_mul 3 (by norm_num) (stripFac 2 n) (stripFac 2 n)
    have hq3 : q ∣ stripFac 3 (stripFac 2 n) := by
      rcases (Nat.Prime.dvd_mul hq).mp (hj3 ▸ hq2) with h3 | h3
      · have := Nat.le_of_dvd (by norm_num) (hq.dvd_of_dvd_pow h3)
        omega
      · exact h3
    obtain ⟨j5, hj5⟩ := stripFacAux_pow_mul 5 (by norm_num)
      (stripFac 3 (stripFac 2 n)) (stripFac 3 (stripFac 2 n))
    have hq5' : q ∣ stripFac 5 (stripFac 3 (stripFac 2 n)) := by
      rcases (Nat.Prime.dvd_mul hq).mp (hj5 ▸ hq3) with h5 | h5
      · have := Nat.le_of_dvd (by norm_num) (hq.dvd_of_dvd_pow h5)
        omega
      · exact h5
    rw [h] at hq5'
    have := Nat.le_of_dvd (by norm_num) hq5'
    have := hq.two_le
    omega
  · rintro ⟨hn0, hall⟩
    set r := stripFac 5 (stripFac 3 (stripFac 2 n)) with hr
    have hs2 : stripFac 2 n ≠ 0 := stripFacAux_ne_zero 2 (by norm_num) n n hn0
    have hs3 : stripFac 3 (stripFac 2 n) ≠ 0 :=
      stripFacAux_ne_zero 3 (by norm_num) _ _ hs2
    have hr0 : r ≠ 0 := stripFacAux_ne_zero 5 (by norm_num) _ _ hs3
    by_contra hr1
    obtain ⟨q, hq, hqr⟩ := Nat.exists_prime_and_dvd hr1
    have hrdvd : r ∣ n :=
      ((stripFacAux_dvd 5 _ _).trans (stripFacAux_dvd 3 _ _)).trans (stripFacAux_dvd 2 _ _)
    have hq5 : q ≤ 5 := hall q hq (hqr.trans hrdvd)
    have hq2 : 2 ≤ q := hq.two_le
    interval_cases q
    · exact stripFacAux_not_dvd 2 (by norm_num) n n le_rfl hn0
        (hqr.trans ((stripFacAux_dvd 5 _ _).trans (stripFacAux_dvd 3 _ _)))
    · exact stripFacAux_not_dvd 3 (by norm_num) _ _ le_rfl hs2
        (hqr.trans (stripFacAux_dvd 5 _ _))
    · exact absurd hq (by norm_num)
    · exact stripFacAux_not_dvd 5 (by norm_num) _ _ le_rfl hs3 hqr

theorem isFiveSmooth_two_pow (k : ℕ) : isFiveSmooth (2 ^ k) = true := by
  rw [isFiveSmooth_iff]
  refine ⟨pow_ne_zero k (by norm_num), fun q hq hdvd => ?_⟩
  have : q ∣ 2 := hq.dvd_of_dvd_pow hdvd
  have := Nat.le_of_dvd (by norm_num) this
  omega

/-! ## The `next_fast_len` search returns the least 5-smooth size -/

theorem le_nflAux : ∀ f n, n ≤ nflAux f n := by
  intro f
  induction f with
  | zero => intro n; simp [nflAux]
  | succ f ih =>
    intro n
    rw [nflAux]
    split
    · exact le_rfl
    · exact (Nat.le_succ n).trans (ih (n + 1))

theorem nflAux_smooth_or : ∀ f n, isFiveSmooth (nflAux f n) = true ∨ nflAux f n = n + f := by
  intro f
  induction f with
  | zero => intro n; exact Or.inr rfl
  | succ f ih =>
    intro n
    rw [nflAux]
    split
    · rename_i h; exact Or.inl h
    · rcases ih (n + 1) with h | h
      · exact Or.inl h
      · exact Or.inr (by omega)

theorem nflAux_min : ∀ f n m, n ≤ m → m < nflAux f n → isFiveSmooth m = false := by
  intro f
  induction f with
  | zero =>
    intro n m h1 h2
    rw [nflAux] at h2
    omega
  | succ f ih =>
    intro n m h1 h2
    rw [nflAux] at h2
    split at h2
    · omega
    · rename_i h
      rcases Nat.eq_or_lt_of_le h1 with rfl | hlt
      · exact Bool.not_eq_true _ |>.mp h
      · exact ih (n + 1) m hlt h2

/-- Specification of the embedded `next_fast_len`: for a positive input it
returns the smallest 5-smooth integer ≥ the input. -/
theorem next_fast_len_spec (n : ℕ) (hn : 1 ≤ n) :
    n ≤ next_fast_len n ∧ isFiveSmooth (next_fast_len n) = true ∧
      ∀ m, n ≤ m → m < next_fast_len n → isFiveSmooth m = false := by
  refine ⟨le_nflAux _ _, ?_, fun m h1 h2 => nflAux_min _ _ _ h1 h2⟩
  rcases nflAux_smooth_or (n + 1) n with h | h
  · exact h
  · exfalso
    have hp : n < 2 ^ (Nat.log 2 n + 1) := Nat.lt_pow_succ_log_self (by norm_num) n
    have hp2 : 2 ^ (Nat.log 2 n + 1) ≤ 2 * n := by
      have hle : 2 ^ Nat.log 2 n ≤ n := Nat.pow_log_le_self 2 (by omega)
      have : 2 ^ (Nat.log 2 n + 1) = 2 * 2 ^ Nat.log 2 n := by ring
      omega
    have h2n : (2 : ℕ) * n < nflAux (n + 1) n := by rw [h]; omega
    have hsm := nflAux_min (n + 1) n (2 ^ (Nat.log 2 n + 1)) (le_of_lt hp)
      (lt_of_le_of_lt hp2 h2n)
    rw [isFiveSmooth_two_pow] at hsm
    simp at hsm

/-! ## Window-count arithmetic of the segmenter -/

theorem filter_range_le_length (K : ℕ) :
    ∀ N, ((List.range N).filter (fun i => decide (i ≤ K))).length = min (K + 1) N := by
  intro N
  induction N with
  | zero => simp
  | succ N ih =>
    rw [List.range_succ, List.filter_append, List.length_append, ih]
    by_cases h : N ≤ K
    · simp [h]
      omega
    · simp [h]
      omega

/-- Exact window count of the segmenter when at least one full window
fits: `⌊(L − W)/S⌋ + 1`. -/
theorem slideStarts_length (L W S : ℚ) (hS : 0 < S) (hW : 0 < W) (hWL : W ≤ L) :
    (slideStarts L W S).length = ⌊(L - W) / S⌋₊ + 1 := by
  unfold slideStarts
  rw [List.length_map]
  have hnn : (0 : ℚ) ≤ (L - W) / S := div_nonneg (by linarith) hS.le
  have hcong : ∀ i ∈ List.range ⌈L / S⌉₊,
      (decide ((i : ℚ) * S + W ≤ L)) = decide (i ≤ ⌊(L - W) / S⌋₊) := by
    intro i _
    rw [decide_eq_decide, Nat.le_floor_iff hnn, le_div_iff hS]
    constructor <;> intro h <;> linarith
  rw [List.filter_congr hcong, filter_range_le_length]
  have h1 : (⌊(L - W) / S⌋₊ : ℚ) ≤ (L - W) / S := Nat.floor_le hnn
  have h2 : (L - W) / S < L / S := by
    apply div_lt_div_of_pos_right ?_ hS
    linarith
  have h3 : ⌊(L - W) / S⌋₊ < ⌈L / S⌉₊ := by
    apply Nat.lt_ceil.mpr
    linarith
  omega

/-- No window is emitted when the trace is shorter than one window. -/
theorem slideStarts_eq_nil (L W S : ℚ) (hS : 0 < S) (hLW : L < W) :
    slideStarts L W S = [] := by
  unfold slideStarts
  have h : ∀ i ∈ List.range ⌈L / S⌉₊, ¬ (decide ((i : ℚ) * S + W ≤ L)) = true := by
    intro i _
    simp only [decide_eq_true_eq]
    intro hle
    have : (0 : ℚ) ≤ (i : ℚ) * S := mul_nonneg (Nat.cast_nonneg i) hS.le
    linarith
  rw [List.filter_eq_nil.mpr h]
  simp

/-- Every emitted window fits inside the trace: start + window length
never exceeds the trace end. -/
theorem slideStarts_fit (L W S : ℚ) :
    ∀ t ∈ slideStarts L W S, t + W ≤ L := by
  intro t ht
  unfold slideStarts at ht
  obtain ⟨i, hi, rfl⟩ := List.mem_map.mp ht
  have := List.of_mem_filter hi
  simpa using this

/-- At least one window is emitted as soon as one full window fits. -/
theorem slideStarts_pos (L W S : ℚ) (hS : 0 < S) (hW : 0 < W) (hWL : W ≤ L) :
    (slideStarts L W S).length ≠ 0 := by
  rw [slideStarts_length L W S hS hW hWL]
  omega

/-! ## Frame-packer lemmas -/

theorem maxNpts_cons (a : List ℚ) (t : List (List ℚ)) :
    maxNpts (a :: t) = max a.length (maxNpts t) := rfl

theorem length_le_maxNpts :
    ∀ (ws : List (List ℚ)) (w : List ℚ), w ∈ ws → w.length ≤ maxNpts ws := by
  intro ws
  induction ws with
  | nil => intro w h; cases h
  | cons a t ih =>
    intro w h
    rw [maxNpts_cons]
    rcases List.mem_cons.mp h with rfl | h
    · exact le_max_left _ _
    · exact le_trans (ih w h) (le_max_right _ _)

theorem packRow_length (width : ℕ) (w : List ℚ) (h : w.length ≤ width) :
    (packRow width w).length = width := by
  simp [packRow]
  omega

theorem packRow_take (width : ℕ) (w : List ℚ) :
    (packRow width w).take w.length = w := List.take_left w _

theorem packRow_drop (width : ℕ) (w : List ℚ) :
    (packRow width w).drop w.length = List.replicate (width - w.length) 0 :=
  List.drop_left w _

theorem packMatrix_getD (ws : List (List ℚ)) (i : ℕ) (h : i < ws.length) :
    (packMatrix ws).getD i [] = packRow (maxNpts ws) (ws.getD i []) := by
  unfold packMatrix
  rw [List.getD_eq_getElem?_getD, List.getElem?_map, List.getD_eq_getElem?_getD]
  rw [List.getElem?_eq_getElem h]
  simp

/-! ## Per-unit driver control-flow lemmas -/

theorem processTagAsdf_skipDeg (c : Config) (mov : List ℚ → ℕ → List ℚ)
    (f1 f2 : List (List ℚ) → List (List ℂ)) (madS stdS : Option ℚ) (L : ℚ)
    (winData : ℕ → List ℚ) (loc : Loc) (h : asdfDegenerate madS stdS = true) :
    processTagAsdf c mov f1 f2 madS stdS L winData loc = .skipDegenerate := by
  simp [processTagAsdf, h]

theorem processFileSac_skipDeg (c : Config) (mov : List ℚ → ℕ → List ℚ)
    (f1 f2 : List (List ℚ) → List (List ℂ)) (madS stdS : Option ℚ) (L : ℚ)
    (winData : ℕ → List ℚ) (locs : List Loc) (ista : ℕ)
    (h : sacDegenerate madS stdS = true) :
    processFileSac c mov f1 f2 madS stdS L winData locs ista = .skipDegenerate := by
  simp [processFileSac, h]

theorem processTagAsdf_noTraces (c : Config) (mov : List ℚ → ℕ → List ℚ)
    (f1 f2 : List (List ℚ) → List (List ℂ)) (madS stdS : Option ℚ) (L : ℚ)
    (winData : ℕ → List ℚ) (loc : Loc) (h : asdfDegenerate madS stdS = false)
    (h0 : (slideStarts L c.cc_len c.step).length = 0) :
    processTagAsdf c mov f1 f2 madS stdS L winData loc = .nameError "source" := by
  simp [processTagAsdf, h, h0]

theorem processFileSac_noTraces (c : Config) (mov : List ℚ → ℕ → List ℚ)
    (f1 f2 : List (List ℚ) → List (List ℂ)) (madS stdS : Option ℚ) (L : ℚ)
    (winData : ℕ → List ℚ) (locs : List Loc) (ista : ℕ)
    (h : sacDegenerate madS stdS = false)
    (h0 : (slideStarts L c.cc_len c.step).length = 0) :
    processFileSac c mov f1 f2 madS stdS L winData locs ista = .skipNoTraces := by
  simp [processFileSac, h, h0]

theorem processFileSac_written (c : Config) (mov : List ℚ → ℕ → List ℚ)
    (f1 f2 : List (List ℚ) → List (List ℂ)) (madS stdS : Option ℚ) (L : ℚ)
    (winData : ℕ → List ℚ) (locs : List Loc) (ista : ℕ)
    (h : sacDegenerate madS stdS = false)
    (h0 : (slideStarts L c.cc_len c.step).length ≠ 0)
    (htn : c.time_norm = false) (htw : c.to_whiten = false) :
    processFileSac c mov f1 f2 madS stdS L winData locs ista =
      .written
        (storeHalf
          (next_fast_len (maxNpts ((List.range (slideStarts L c.cc_len c.step).length).map winData)))
          (fftMatrix
            (next_fast_len (maxNpts ((List.range (slideStarts L c.cc_len c.step).length).map winData)))
            (packMatrix ((List.range (slideStarts L c.cc_len c.step).length).map winData))))
        (locs.getD 0 ⟨0, 0, 0⟩) := by
  simp [processFileSac, h, h0, htn, htw, timeNormStage, spectralDispatch]

/-! ## Python `range` membership -/

theorem mem_pyRange (a b s i : ℕ) :
    i ∈ pyRange a b s ↔ ∃ k, k < (b - a + s - 1) / s ∧ i = a + k * s := by
  simp only [pyRange, List.mem_map, List.mem_range]
  constructor
  · rintro ⟨k, hk, rfl⟩
    exact ⟨k, hk, rfl⟩
  · rintro ⟨k, hk, rfl⟩
    exact ⟨k, hk, rfl⟩

/-! ## Indexed access helpers -/

theorem getD_map_lt {α β : Type} (f : α → β) (l : List α) (i : ℕ) (d : α) (e : β)
    (h : i < l.length) : (l.map f).getD i e = f (l.getD i d) := by
  rw [List.getD_eq_getElem?_getD, List.getElem?_map, List.getD_eq_getElem?_getD,
    List.getElem?_eq_getElem h]
  simp

theorem getD_range_lt (n k : ℕ) (h : k < n) : (List.range n).getD k 0 = k := by
  rw [List.getD_eq_getElem?_getD, List.getElem?_range h]
  rfl

theorem fftRow_length (Nfft : ℕ) (row : List ℚ) : (fftRow Nfft row).length = Nfft := by
  simp [fftRow]

theorem fftRow_getD (Nfft : ℕ) (row : List ℚ) (k : ℕ) (h : k < Nfft) :
    (fftRow Nfft row).getD k 0 = dftCoeff Nfft row k := by
  unfold fftRow
  rw [getD_map_lt _ _ _ 0 _ (by simpa using h), getD_range_lt _ _ h]

theorem oneBitMatrix_getD (m : List (List ℚ)) (i j : ℕ) :
    ((oneBitMatrix m).getD i []).getD j 0 = qsign ((m.getD i []).getD j 0) := by
  by_cases hi : i < m.length
  · unfold oneBitMatrix
    rw [getD_map_lt (List.map qsign) m i [] [] hi]
    by_cases hj : j < (m.getD i []).length
    · rw [getD_map_lt qsign _ j 0 0 hj]
    · have h1 : ((m.getD i []).map qsign).getD j 0 = 0 :=
        List.getD_eq_default _ _ (by simpa using hj)
      have h2 : (m.getD i []).getD j 0 = 0 :=
        List.getD_eq_default _ _ (by omega)
      rw [h1, h2]
      simp [qsign]
  · have h1 : (oneBitMatrix m).getD i [] = [] :=
      List.getD_eq_default _ _ (by simpa [oneBitMatrix] using hi)
    have h2 : m.getD i [] = [] :=
      List.getD_eq_default _ _ (by omega)
    rw [h1, h2]
    simp [qsign]

/-! ## Claims -/

/-- C4: for a trace of `L` seconds segmented with window length `W` and
step `S` (both positive), the segmenter emits `⌊(L − W)/S⌋ + 1` windows
when `L ≥ W` and none when `L < W`; every emitted window ends at or
before the trace end. -/
theorem C4_window_count (L W S : ℚ) (hS : 0 < S) (hW : 0 < W) :
    (W ≤ L → (slideStarts L W S).length = ⌊(L - W) / S⌋₊ + 1) ∧
    (L < W → (slideStarts L W S).length = 0) ∧
    (∀ t ∈ slideStarts L W S, t + W ≤ L) := by
  refine ⟨fun h => slideStarts_length L W S hS hW h, fun h => ?_, slideStarts_fit L W S⟩
  rw [slideStarts_eq_nil L W S hS h]
  rfl

/-- C4 witness: the spec's end-to-end scenario, a 3600 s trace with
1800 s windows and 900 s step gives `⌊1800/900⌋ + 1 = 3` windows. -/
theorem C4_window_count_witness :
    (0 : ℚ) < 900 ∧ (0 : ℚ) < 1800 ∧ (1800 : ℚ) ≤ 3600 ∧
      (slideStarts 3600 1800 900).length = ⌊((3600 : ℚ) - 1800) / 900⌋₊ + 1 :=
  ⟨by norm_num, by norm_num, by norm_num,
    (C4_window_count 3600 1800 900 (by norm_num) (by norm_num)).1 (by norm_num)⟩

/-- C9: worker `rank` in a pool of `size` workers processes exactly the
unit indices `i < splits` with `i % size = rank`: every unit is handled
by exactly one worker (the one with rank = index mod worker count),
indices ≥ `splits` are never processed, and the per-worker subsets are
disjoint and cover all units. -/
theorem C9_mpi_partition (splits size rank i : ℕ) (hsz : 1 ≤ size) (hrk : rank < size) :
    i ∈ processedIndices splits size rank ↔ i < splits ∧ i % size = rank := by
  unfold processedIndices
  rw [List.mem_filter, mem_pyRange]
  simp only [decide_eq_true_eq]
  set stop := splits + size - splits % size with hstop
  have hmod : splits % size < size := Nat.mod_lt _ (by omega)
  have hstop1 : splits < stop := by omega
  constructor
  · rintro ⟨⟨k, hk, rfl⟩, hlt⟩
    refine ⟨hlt, ?_⟩
    rw [Nat.add_mul_mod_self_right]
    exact Nat.mod_eq_of_lt hrk
  · rintro ⟨hlt, hmod'⟩
    refine ⟨⟨i / size, ?_, ?_⟩, hlt⟩
    · have hdm := Nat.div_add_mod i size
      set k := i / size
      have hcomm : k * size = size * k := Nat.mul_comm k size
      have hdiv : stop - rank + size - 1 = (stop - 1 - rank) + size := by omega
      rw [hdiv, Nat.add_div_right _ (by omega)]
      have hks : k * size ≤ stop - 1 - rank := by omega
      have : k ≤ (stop - 1 - rank) / size := (Nat.le_div_iff_mul_le (by omega)).mpr hks
      omega
    · have hdm := Nat.div_add_mod i size
      have hcomm : (i / size) * size = size * (i / size) := Nat.mul_comm _ _
      omega

/-- C9 witness: with 7 units and 3 workers, unit 4 belongs to worker 1
(4 mod 3) and to no other. -/
theorem C9_mpi_partition_witness :
    1 ≤ 3 ∧ 1 < 3 ∧ (4 ∈ processedIndices 7 3 1 ↔ 4 < 7 ∧ 4 % 3 = 1) :=
  ⟨by decide, by decide, C9_mpi_partition 7 3 1 4 (by decide) (by decide)⟩

/-- C10: one-bit time normalization is the elementwise sign map: a
positive entry becomes exactly +1, a negative entry exactly −1, and a
zero entry stays 0 (entries read with zero default). -/
theorem C10_one_bit_sign (m : List (List ℚ)) (i j : ℕ) :
    (0 < (m.getD i []).getD j 0 → ((oneBitMatrix m).getD i []).getD j 0 = 1) ∧
    ((m.getD i []).getD j 0 < 0 → ((oneBitMatrix m).getD i []).getD j 0 = -1) ∧
    ((m.getD i []).getD j 0 = 0 → ((oneBitMatrix m).getD i []).getD j 0 = 0) := by
  refine ⟨fun h => ?_, fun h => ?_, fun h => ?_⟩ <;> rw [oneBitMatrix_getD] <;> unfold qsign
  · rw [if_pos h]
  · rw [if_neg (lt_asymm h), if_pos h]
  · rw [h]
    norm_num

/-- C10 witness: the entry 2 of `[[2, -3, 0]]` maps to +1. -/
theorem C10_one_bit_sign_witness :
    0 < (([[(2 : ℚ), -3, 0]] : List (List ℚ)).getD 0 []).getD 0 0 ∧
      ((oneBitMatrix [[(2 : ℚ), -3, 0]]).getD 0 []).getD 0 0 = 1 :=
  ⟨by norm_num [List.getD], (C10_one_bit_sign [[(2 : ℚ), -3, 0]] 0 0).1 (by norm_num [List.getD])⟩

/-- C5: frame-packing round-trip: row `i` of the packed matrix starts
with exactly the `i`-th window's samples (its true sample count many) and
every entry after them is exactly zero. -/
theorem C5_pack_roundtrip (ws : List (List ℚ)) (i : ℕ) (h : i < ws.length) :
    ((packMatrix ws).getD i []).take (ws.getD i []).length = ws.getD i [] ∧
    ∀ x ∈ ((packMatrix ws).getD i []).drop (ws.getD i []).length, x = 0 := by
  rw [packMatrix_getD ws i h]
  refine ⟨packRow_take _ _, ?_⟩
  rw [packRow_drop]
  intro x hx
  exact List.eq_of_mem_replicate hx

/-- C5 witness: for the window set `[[1,2],[3]]`, row 1 of the packed
matrix starts with `[3]` and is zero afterwards. -/
theorem C5_pack_roundtrip_witness :
    1 < ([[(1 : ℚ), 2], [3]] : List (List ℚ)).length ∧
    (((packMatrix [[(1 : ℚ), 2], [3]]).getD 1 []).take
        (([[(1 : ℚ), 2], [3]] : List (List ℚ)).getD 1 []).length
      = ([[(1 : ℚ), 2], [3]] : List (List ℚ)).getD 1 [] ∧
    ∀ x ∈ ((packMatrix [[(1 : ℚ), 2], [3]]).getD 1 []).drop
        (([[(1 : ℚ), 2], [3]] : List (List ℚ)).getD 1 []).length, x = 0) :=
  ⟨by norm_num, C5_pack_roundtrip [[(1 : ℚ), 2], [3]] 1 (by norm_num)⟩

/-- C3 counterexample: for the window set `[[1,…,7]]` the packed-matrix
row width is 7 while `next_fast_len` of the maximum sample count is 8 —
the packed matrix does not have width `padded_width`; and for `[[1,2,3]]`
the transform length `next_fast_len 3 = 3` is odd. -/
theorem C3_padded_width_counterexample :
    ((packMatrix [[(1 : ℚ), 2, 3, 4, 5, 6, 7]]).getD 0 []).length = 7 ∧
    next_fast_len (maxNpts [[(1 : ℚ), 2, 3, 4, 5, 6, 7]]) = 8 ∧
    ¬ Even (next_fast_len (maxNpts [[(1 : ℚ), 2, 3]])) :=
  ⟨rfl, by decide, by decide⟩

/-- C3 amended: the packed matrix has shape `num_windows × NtS` with
`NtS` the maximum true window sample count; the forward-transform length
is `next_fast_len NtS`, the smallest 5-smooth integer ≥ `NtS` (every
transformed row has that length), but it can exceed the packed width and
need not be even. -/
theorem C3_pack_shape (ws : List (List ℚ)) (hws : 1 ≤ maxNpts ws) :
    (packMatrix ws).length = ws.length ∧
    (∀ row ∈ packMatrix ws, row.length = maxNpts ws) ∧
    maxNpts ws ≤ next_fast_len (maxNpts ws) ∧
    isFiveSmooth (next_fast_len (maxNpts ws)) = true ∧
    (∀ m, maxNpts ws ≤ m → m < next_fast_len (maxNpts ws) → isFiveSmooth m = false) ∧
    (∀ row ∈ packMatrix ws,
      (fftRow (next_fast_len (maxNpts ws)) row).length = next_fast_len (maxNpts ws)) := by
  obtain ⟨h1, h2, h3⟩ := next_fast_len_spec (maxNpts ws) hws
  refine ⟨List.length_map _ _, ?_, h1, h2, h3, fun row _ => fftRow_length _ _⟩
  intro row hrow
  obtain ⟨w, hw, rfl⟩ := List.mem_map.mp hrow
  exact packRow_length _ _ (length_le_maxNpts ws w hw)

/-- C3 witness: the window set `[[1,2],[3]]` has maximum sample count 2
and the amended shape facts hold for it. -/
theorem C3_pack_shape_witness :
    1 ≤ maxNpts [[(1 : ℚ), 2], [3]] ∧
    ((packMatrix [[(1 : ℚ), 2], [3]]).length = ([[(1 : ℚ), 2], [3]] : List (List ℚ)).length ∧
      (∀ row ∈ packMatrix [[(1 : ℚ), 2], [3]], row.length = maxNpts [[(1 : ℚ), 2], [3]]) ∧
      maxNpts [[(1 : ℚ), 2], [3]] ≤ next_fast_len (maxNpts [[(1 : ℚ), 2], [3]]) ∧
      isFiveSmooth (next_fast_len (maxNpts [[(1 : ℚ), 2], [3]])) = true ∧
      (∀ m, maxNpts [[(1 : ℚ), 2], [3]] ≤ m →
        m < next_fast_len (maxNpts [[(1 : ℚ), 2], [3]]) → isFiveSmooth m = false) ∧
      (∀ row ∈ packMatrix [[(1 : ℚ), 2], [3]],
        (fftRow (next_fast_len (maxNpts [[(1 : ℚ), 2], [3]])) row).length
          = next_fast_len (maxNpts [[(1 : ℚ), 2], [3]]))) :=
  ⟨by decide, C3_pack_shape [[(1 : ℚ), 2], [3]] (by decide)⟩

/-- C1 counterexample: a SAC/MiniSeed unit whose whole-day MAD is NaN
(and STD is 1) is NOT skipped — with a 2 s trace, 1 s windows and step
1 s it runs to completion and writes an archive entry, contradicting the
claim that a non-finite statistic skips the unit in both branches. -/
theorem C1_sac_nan_counterexample :
    sacDegenerate none (some 1) = false ∧
    (processFileSac ⟨false, false, "running_mean", "running_mean", 100, 1, 1⟩
        (fun r _ => r) (fun _ => []) (fun _ => [])
        none (some 1) 2 (fun _ => [1]) [⟨1, 2, 3⟩] 0).isWritten = true := by
  constructor
  · simp [sacDegenerate]
  · rw [processFileSac_written _ _ _ _ _ _ _ _ _ _
        (by simp [sacDegenerate])
        (slideStarts_pos 2 1 1 (by norm_num) (by norm_num) (by norm_num)) rfl rfl]
    rfl

/-- C1 amended: the degenerate-statistics skip is branch-dependent: the
ASDF branch skips the unit (before windowing, with no output) iff MAD or
STD is zero or NaN, while the SAC/MiniSeed branch skips iff MAD or STD is
exactly zero — a NaN statistic does not trigger its skip. -/
theorem C1_degenerate_guard (madS stdS : Option ℚ) (c : Config)
    (mov : List ℚ → ℕ → List ℚ) (f1 f2 : List (List ℚ) → List (List ℂ))
    (L : ℚ) (winData : ℕ → List ℚ) (loc : Loc) (locs : List Loc) (ista : ℕ) :
    (asdfDegenerate madS stdS = true ↔
      (madS = some 0 ∨ stdS = some 0 ∨ madS = none ∨ stdS = none)) ∧
    (sacDegenerate madS stdS = true ↔ (madS = some 0 ∨ stdS = some 0)) ∧
    (asdfDegenerate madS stdS = true →
      processTagAsdf c mov f1 f2 madS stdS L winData loc = .skipDegenerate) ∧
    (sacDegenerate madS stdS = true →
      processFileSac c mov f1 f2 madS stdS L winData locs ista = .skipDegenerate) :=
  ⟨by simp [asdfDegenerate], by simp [sacDegenerate],
    processTagAsdf_skipDeg c mov f1 f2 madS stdS L winData loc,
    processFileSac_skipDeg c mov f1 f2 madS stdS L winData locs ista⟩

/-- C1 witness: a zero MAD statistic makes the ASDF branch skip the unit. -/
theorem C1_degenerate_guard_witness :
    asdfDegenerate (some 0) (some 1) = true ∧
    processTagAsdf ⟨false, false, "running_mean", "running_mean", 100, 1, 1⟩
        (fun r _ => r) (fun _ => []) (fun _ => [])
        (some 0) (some 1) 2 (fun _ => [1]) ⟨1, 2, 3⟩ = .skipDegenerate :=
  ⟨by simp [asdfDegenerate],
    (C1_degenerate_guard (some 0) (some 1)
      ⟨false, false, "running_mean", "running_mean", 100, 1, 1⟩
      (fun r _ => r) (fun _ => []) (fun _ => []) 2 (fun _ => [1]) ⟨1, 2, 3⟩ [] 0).2.2.1
      (by simp [asdfDegenerate])⟩

/-- C7: in the ASDF branch a non-degenerate trace shorter than one
window yields zero windows, and the unit then ends in a `NameError` on
the deleted variable `source` (raised while formatting the skip message)
instead of a clean skip. -/
theorem C7_no_windows_name_error (c : Config) (mov : List ℚ → ℕ → List ℚ)
    (f1 f2 : List (List ℚ) → List (List ℂ)) (madS stdS : Option ℚ) (L : ℚ)
    (winData : ℕ → List ℚ) (loc : Loc)
    (hg : asdfDegenerate madS stdS = false) (hS : 0 < c.step) (hL : L < c.cc_len) :
    processTagAsdf c mov f1 f2 madS stdS L winData loc = .nameError "source" := by
  apply processTagAsdf_noTraces c mov f1 f2 madS stdS L winData loc hg
  rw [slideStarts_eq_nil L c.cc_len c.step hS hL]
  rfl

/-- C7 witness: a healthy 1 s trace with 2 s windows (zero windows
emitted) raises the `NameError` on `source`. -/
theorem C7_no_windows_name_error_witness :
    asdfDegenerate (some 1) (some 1) = false ∧ (0 : ℚ) < 1 ∧ (1 : ℚ) < 2 ∧
    processTagAsdf ⟨false, false, "running_mean", "running_mean", 100, 2, 1⟩
        (fun r _ => r) (fun _ => []) (fun _ => [])
        (some 1) (some 1) 1 (fun _ => [1]) ⟨1, 2, 3⟩ = .nameError "source" :=
  ⟨by simp [asdfDegenerate], by norm_num, by norm_num,
    C7_no_windows_name_error ⟨false, false, "running_mean", "running_mean", 100, 2, 1⟩
      (fun r _ => r) (fun _ => []) (fun _ => []) (some 1) (some 1) 1 (fun _ => [1]) ⟨1, 2, 3⟩
      (by simp [asdfDegenerate]) (by norm_num) (by norm_num)⟩

/-- C2: the startup resets test the opposite flag (lines 95–100), so with
exactly one stage enabled the enabled stage's mode string has been
cleared to `''`: with only time normalization enabled the dispatch
assigns nothing and the first use of `white` raises `NameError`; with
only whitening enabled, `source_white` is the unassigned name.  The unit
fails instead of executing its configured `running_mean` branch. -/
theorem C2_swapped_reset_name_error :
    effNormType ⟨true, false, "running_mean", "running_mean", 100, 1, 1⟩ = "" ∧
    processTagAsdf ⟨true, false, "running_mean", "running_mean", 100, 1, 1⟩
        (fun r _ => r) (fun _ => []) (fun _ => [])
        (some 1) (some 1) 2 (fun _ => [1]) ⟨1, 2, 3⟩ = .nameError "white" ∧
    effWhitenType ⟨false, true, "running_mean", "running_mean", 100, 1, 1⟩ = "" ∧
    processTagAsdf ⟨false, true, "running_mean", "running_mean", 100, 1, 1⟩
        (fun r _ => r) (fun _ => []) (fun _ => [])
        (some 1) (some 1) 2 (fun _ => [1]) ⟨1, 2, 3⟩ = .nameError "source_white" := by
  have hlen := slideStarts_pos 2 1 1 (by norm_num) (by norm_num) (by norm_num)
  refine ⟨rfl, ?_, rfl, ?_⟩
  · simp [processTagAsdf, asdfDegenerate, hlen, timeNormStage, spectralDispatch,
      effNormType, effWhitenType]
  · simp [processTagAsdf, asdfDegenerate, hlen, timeNormStage, spectralDispatch,
      effNormType, effWhitenType]

/-- C8: the SAC/MiniSeed branch hands `locs.iloc[0]` — row 0 of the
station table — to `fft_parameters` for every processed station `ista`,
so whenever row `ista` differs from row 0 the stored location is not
that of the processed station. -/
theorem C8_sac_location_row_zero (c : Config) (mov : List ℚ → ℕ → List ℚ)
    (f1 f2 : List (List ℚ) → List (List ℂ)) (madS stdS : Option ℚ) (L : ℚ)
    (winData : ℕ → List ℚ) (locs : List Loc) (ista : ℕ)
    (h : sacDegenerate madS stdS = false)
    (h0 : (slideStarts L c.cc_len c.step).length ≠ 0)
    (htn : c.time_norm = false) (htw : c.to_whiten = false) :
    (processFileSac c mov f1 f2 madS stdS L winData locs ista).writtenLoc
        = some (locs.getD 0 ⟨0, 0, 0⟩) ∧
    (locs.getD ista ⟨0, 0, 0⟩ ≠ locs.getD 0 ⟨0, 0, 0⟩ →
      (processFileSac c mov f1 f2 madS stdS L winData locs ista).writtenLoc
          ≠ some (locs.getD ista ⟨0, 0, 0⟩)) := by
  rw [processFileSac_written c mov f1 f2 madS stdS L winData locs ista h h0 htn htw]
  refine ⟨rfl, fun hne hcontra => hne ?_⟩
  exact (Option.some.inj hcontra).symm

/-- C8 witness: with a two-station table, processing station 1 stores
station 0's location, not station 1's. -/
theorem C8_sac_location_row_zero_witness :
    sacDegenerate (some 1) (some 1) = false ∧
    (slideStarts 2 1 1).length ≠ 0 ∧
    (processFileSac ⟨false, false, "running_mean", "running_mean", 100, 1, 1⟩
        (fun r _ => r) (fun _ => []) (fun _ => [])
        (some 1) (some 1) 2 (fun _ => [1]) [⟨1, 2, 3⟩, ⟨4, 5, 6⟩] 1).writtenLoc
      = some (([⟨1, 2, 3⟩, ⟨4, 5, 6⟩] : List Loc).getD 0 ⟨0, 0, 0⟩) ∧
    (([⟨1, 2, 3⟩, ⟨4, 5, 6⟩] : List Loc).getD 1 ⟨0, 0, 0⟩
        ≠ ([⟨1, 2, 3⟩, ⟨4, 5, 6⟩] : List Loc).getD 0 ⟨0, 0, 0⟩ →
      (processFileSac ⟨false, false, "running_mean", "running_mean", 100, 1, 1⟩
          (fun r _ => r) (fun _ => []) (fun _ => [])
          (some 1) (some 1) 2 (fun _ => [1]) [⟨1, 2, 3⟩, ⟨4, 5, 6⟩] 1).writtenLoc
        ≠ some (([⟨1, 2, 3⟩, ⟨4, 5, 6⟩] : List Loc).getD 1 ⟨0, 0, 0⟩)) := by
  have hmain := C8_sac_location_row_zero
    ⟨false, false, "running_mean", "running_mean", 100, 1, 1⟩
    (fun r _ => r) (fun _ => []) (fun _ => []) (some 1) (some 1) 2 (fun _ => [1])
    [⟨1, 2, 3⟩, ⟨4, 5, 6⟩] 1 (by simp [sacDegenerate])
    (slideStarts_pos 2 1 1 (by norm_num) (by norm_num) (by norm_num)) rfl rfl
  exact ⟨by simp [sacDegenerate],
    slideStarts_pos 2 1 1 (by norm_num) (by norm_num) (by norm_num), hmain.1, hmain.2⟩

/-- C6: with whitening disabled the spectral stage is the plain forward
transform at length `Nfft` of each (optionally time-normalized) row, and
the stored payload is the `num_windows × Nfft/2` matrix whose entry
`(i, k)` is transform bin `k` of row `i`, with no amplitude change. -/
theorem C6_no_whiten_plain_fft (wt : String) (f1 f2 : List (List ℚ) → List (List ℂ))
    (Nfft : ℕ) (white : List (List ℚ)) (i k : ℕ)
    (hi : i < white.length) (hk : k < Nfft / 2) :
    spectralDispatch false wt f1 f2 Nfft (some white) = .ok (fftMatrix Nfft white) ∧
    (storeHalf Nfft (fftMatrix Nfft white)).length = white.length ∧
    ((storeHalf Nfft (fftMatrix Nfft white)).getD i []).length = Nfft / 2 ∧
    ((storeHalf Nfft (fftMatrix Nfft white)).getD i []).getD k 0
        = dftCoeff Nfft (white.getD i []) k := by
  have hlen : i < (fftMatrix Nfft white).length := by simpa [fftMatrix] using hi
  have hrow : (storeHalf Nfft (fftMatrix Nfft white)).getD i []
      = (List.range (Nfft / 2)).map
          (fun j => ((fftMatrix Nfft white).getD i []).getD j 0) := by
    unfold storeHalf
    exact getD_map_lt _ _ _ [] _ hlen
  refine ⟨rfl, by simp [storeHalf, fftMatrix], ?_, ?_⟩
  · rw [hrow]
    simp
  · rw [hrow]
    have hk2 : k < (List.range (Nfft / 2)).length := by simpa using hk
    rw [getD_map_lt _ _ _ 0 _ hk2, getD_range_lt _ _ hk]
    have hmrow : (fftMatrix Nfft white).getD i [] = fftRow Nfft (white.getD i []) := by
      unfold fftMatrix
      exact getD_map_lt _ _ _ [] _ hi
    rw [hmrow, fftRow_getD _ _ _ (lt_of_lt_of_le hk (Nat.div_le_self _ _))]

/-- C6 witness: a single window `[1]` at `Nfft = 2` stores a one-column
matrix whose entry is transform bin 0. -/
theorem C6_no_whiten_plain_fft_witness :
    0 < ([[(1 : ℚ)]] : List (List ℚ)).length ∧ 0 < 2 / 2 ∧
    (spectralDispatch false "running_mean" (fun _ => []) (fun _ => []) 2 (some [[(1 : ℚ)]])
        = .ok (fftMatrix 2 [[(1 : ℚ)]]) ∧
      (storeHalf 2 (fftMatrix 2 [[(1 : ℚ)]])).length = ([[(1 : ℚ)]] : List (List ℚ)).length ∧
      ((storeHalf 2 (fftMatrix 2 [[(1 : ℚ)]])).getD 0 []).length = 2 / 2 ∧
      ((storeHalf 2 (fftMatrix 2 [[(1 : ℚ)]])).getD 0 []).getD 0 0
        = dftCoeff 2 (([[(1 : ℚ)]] : List (List ℚ)).getD 0 []) 0) :=
  ⟨by norm_num, by norm_num,
    C6_no_whiten_plain_fft "running_mean" (fun _ => []) (fun _ => []) 2 [[(1 : ℚ)]] 0 0
      (by norm_num) (by norm_num)⟩
